import Mathlib

/-
Verification of the square-root-chunked deque
(`src/deque_accepted_sqrt_vector_without_cache.hpp`).

The container is modelled shallowly:

* a chunk (`Vector<T>`) is a `List Int` of its live prefix — capacities only
  affect allocation, never observable values or control flow, so they are not
  carried;
* the chunk table (`Vector<Vector<T>>`) is a `List Chunk`;
* the member `_size` is the `sz` field (an `int` that is non-negative in every
  reachable state, hence a `Nat`; positions are `Int` where the C++ signature
  is `int`);
* `throw e` is `Except.error e`; the three exception kinds of the external
  error module are the constructors of `Err`;
* `rand() < INSERT_GC_THRESHOLD` / `rand() < REMOVE_GC_THRESHOLD` is a
  non-deterministic boolean, passed explicitly as the `g` argument of each
  mutator.
-/

namespace SjtuDeque

abbrev Chunk := List Int

/-- State of `sjtu::deque<T>` (with `T = Int`): the `_size` member and the
chunk table `x`. -/
structure Deque where
  sz : Nat
  x : List Chunk
deriving Repr, DecidableEq

/-- The three exception kinds of the external error module
(`index_out_of_bound`, `container_is_empty`, `invalid_iterator`). -/
inductive Err where
  | indexOutOfBound
  | containerIsEmpty
  | invalidIterator
deriving Repr, DecidableEq

/-- Source `init()`: `_size = 0; x.insert(0, Vector<T>())` — followed from the
default constructor, giving one empty chunk. -/
def deque_new : Deque := { sz := 0, x := [[]] }

/-- Source `throw_if_out_of_bound(int pos, bool include_end)`:
`if (include_end && pos == size()) return;`
`if (pos < 0 || pos >= size()) throw index_out_of_bound();`. -/
def throw_if_out_of_bound (d : Deque) (pos : Int) (include_end : Bool) : Except Err Unit :=
  if include_end = true ∧ pos = (d.sz : Int) then Except.ok ()
  else if pos < 0 ∨ (d.sz : Int) ≤ pos then Except.error Err.indexOutOfBound
  else Except.ok ()

/-- The forward loop of `find_at`:
`while (_pos >= (tmp = x[i]._size)) { if (tmp == 0) { ++i; continue; } _pos -= tmp; ++i; }`.
Subtracting `tmp = 0` is a no-op, so the zero-skip branch and the general
branch both are "subtract the length and move right".  Returns the number of
chunks passed and the remaining offset. -/
def scanFwdGe : List Chunk → Nat → Nat × Nat
  | [], p => (0, p)
  | c :: rest, p =>
    if c.length ≤ p then
      let r := scanFwdGe rest (p - c.length)
      (r.1 + 1, r.2)
    else (0, p)

/-- The forward loop of `find_at_allow_end`:
`while (_pos > (tmp = x[i].size())) { _pos -= tmp; ++i; }` — strict comparison,
so a position at the very end of a chunk stays in that chunk. -/
def scanFwdGt : List Chunk → Nat → Nat × Nat
  | [], p => (0, p)
  | c :: rest, p =>
    if c.length < p then
      let r := scanFwdGt rest (p - c.length)
      (r.1 + 1, r.2)
    else (0, p)

/-- The backward loop of `find_at`, walking the reversed table:
`while (_pos > (tmp = x[i]._size)) { if (tmp == 0) { --i; continue; } _pos -= tmp; --i; }`
followed by the final flip `_pos = x[i]._size - _pos`.  The input list is the
reversed chunk table; the first component counts chunks passed from the end. -/
def scanBwdGt : List Chunk → Nat → Nat × Nat
  | [], p => (0, p)
  | c :: rest, p =>
    if c.length < p then
      let r := scanBwdGt rest (p - c.length)
      (r.1 + 1, r.2)
    else (0, c.length - p)

/-- The backward loop of `find_at_allow_end`:
`while (i != 0 && _pos >= (tmp = x[i].size())) { _pos -= tmp; --i; }`
followed by `_pos = x[i].size() - _pos`.  The `i != 0` guard is the
singleton pattern below. -/
def scanBwdAllowEnd : List Chunk → Nat → Nat × Nat
  | [], p => (0, p)
  | [c], p => (0, c.length - p)
  | c :: rest, p =>
    if c.length ≤ p then
      let r := scanBwdAllowEnd rest (p - c.length)
      (r.1 + 1, r.2)
    else (0, c.length - p)

/-- Source `find_at(int &pos)`: scans forward when `pos <= _size >> 1`, else
backward from the last chunk with `_pos = _size - pos`.  Returns the chunk
index and (through the reference argument) the offset inside the chunk. -/
def find_at (d : Deque) (pos : Nat) : Nat × Nat :=
  if pos ≤ d.sz / 2 then scanFwdGe d.x pos
  else
    let r := scanBwdGt d.x.reverse (d.sz - pos)
    (d.x.length - 1 - r.1, r.2)

/-- Source `find_at_allow_end(int &pos)`: same dispatch on `pos <= _size >> 1`,
with the end-allowing comparisons. -/
def find_at_allow_end (d : Deque) (pos : Nat) : Nat × Nat :=
  if pos ≤ d.sz / 2 then scanFwdGt d.x pos
  else
    let r := scanBwdAllowEnd d.x.reverse (d.sz - pos)
    (d.x.length - 1 - r.1, r.2)

/-- Source `access(int pos)` (the static helper used by `at`, `operator[]`,
`front`, `back` and iterator dereference):
`throw_if_out_of_bound(pos); int i = find_at(pos); return x[i][pos];`. -/
def access (d : Deque) (pos : Int) : Except Err Int :=
  match throw_if_out_of_bound d pos false with
  | Except.error e => Except.error e
  | Except.ok _ =>
    let r := find_at d pos.toNat
    Except.ok ((d.x.getD r.1 []).getD r.2 0)

/-- Source `should_split(int total_size)`:
`total_size >= 16 && total_size * total_size > _size * 8`. -/
def should_split (sz total : Nat) : Bool :=
  decide (16 ≤ total ∧ sz * 8 < total * total)

/-- Source `should_merge(int total_size)`:
`total_size * total_size * 64 <= _size`. -/
def should_merge (sz total : Nat) : Bool :=
  decide (total * total * 64 ≤ sz)

/-- Source `split_chunk(int chunk)`: insert a fresh chunk before `chunk`, copy
the first `size >> 1` slots into it, keep the rest in the original (now at
`chunk + 1`). -/
def split_chunk (x : List Chunk) (chunk : Nat) : List Chunk :=
  let split_size := (x.getD chunk []).length / 2
  let x1 := x.insertIdx chunk ([] : Chunk)
  let chk_b := x1.getD (chunk + 1) []
  (x1.set chunk (chk_b.take split_size)).set (chunk + 1) (chk_b.drop split_size)

/-- Source `merge_chunk(int chunk)`: append chunk `chunk + 1` onto chunk
`chunk` and erase the emptied right chunk from the table. -/
def merge_chunk (x : List Chunk) (chunk : Nat) : List Chunk :=
  let chk_a := x.getD chunk []
  let chk_b := x.getD (chunk + 1) []
  (x.set chunk (chk_a ++ chk_b)).eraseIdx (chunk + 1)

/-- Source `clear_zero()`:
`if (x.size() <= 1) return;`
`for (i = 0; i < x.size() - 1; i++) if (x[i].size() == 0) x.erase(i);`
After an erase the loop index still advances, so the chunk shifted into slot
`i` is skipped (kept unexamined), and the final chunk is never examined. -/
def clearZeroRun : List Chunk → List Chunk
  | [] => []
  | [c] => [c]
  | c :: d :: rest =>
    if c.length = 0 then d :: clearZeroRun rest
    else c :: clearZeroRun (d :: rest)

/-- The first loop of `gc()`:
`for (i = 0; i < x.size(); i++) if (should_split(x[i].size())) { split_chunk(i); ++i; }`
A split leaves both halves behind the advancing index, so neither half is
re-examined. -/
def splitRun (sz : Nat) : List Chunk → List Chunk
  | [] => []
  | c :: rest =>
    if should_split sz c.length then
      c.take (c.length / 2) :: c.drop (c.length / 2) :: splitRun sz rest
    else c :: splitRun sz rest

/-- The body of the second loop of `gc()` with `a` the chunk at the current
index `i`: if `should_merge(x[i].size() + x[i+1].size())`, `merge_chunk(i)`
followed by `--i` re-examines the merged chunk against its new right
neighbour; otherwise the index moves on.  A chunk left behind is never
revisited. -/
def mergeInto (sz : Nat) (a : Chunk) : List Chunk → List Chunk
  | [] => [a]
  | b :: rest =>
    if should_merge sz (a.length + b.length) then mergeInto sz (a ++ b) rest
    else a :: mergeInto sz b rest

/-- The second loop of `gc()`:
`for (i = 0; i < x.size() - 1; i++) if (should_merge(x[i].size() + x[i+1].size())) { merge_chunk(i); --i; }`. -/
def mergeRun (sz : Nat) : List Chunk → List Chunk
  | [] => []
  | a :: rest => mergeInto sz a rest

/-- Source `gc()` : `clear_zero();` then the split loop, then the merge loop.
`_size` is never touched. -/
def gc (d : Deque) : Deque :=
  { sz := d.sz, x := mergeRun d.sz (splitRun d.sz (clearZeroRun d.x)) }

/-- Source `insert_at(int pos, const T &value)`:
bound check (end allowed), locate, `x[i].insert(pos, value)`, `++_size`,
split check on the mutated chunk, probabilistic `gc()`, return the original
logical position. -/
def insert_at (d : Deque) (pos : Int) (v : Int) (g : Bool) : Except Err (Deque × Int) :=
  match throw_if_out_of_bound d pos true with
  | Except.error e => Except.error e
  | Except.ok _ =>
    let r := find_at_allow_end d pos.toNat
    let x1 := d.x.set r.1 ((d.x.getD r.1 []).insertIdx r.2 v)
    let sz1 := d.sz + 1
    let x2 := if should_split sz1 ((x1.getD r.1 []).length) then split_chunk x1 r.1 else x1
    let d2 : Deque := { sz := sz1, x := x2 }
    Except.ok (if g then gc d2 else d2, pos)

/-- Source `remove_at(int pos)`:
bound check, locate, `x[i].erase(pos)`, `--_size`; then either the merge check
with the right neighbour (when `i` is not the last chunk) or the
empty-last-chunk reclamation; probabilistic `gc()`; return the original
logical position. -/
def remove_at (d : Deque) (pos : Int) (g : Bool) : Except Err (Deque × Int) :=
  match throw_if_out_of_bound d pos false with
  | Except.error e => Except.error e
  | Except.ok _ =>
    let r := find_at d pos.toNat
    let x1 := d.x.set r.1 ((d.x.getD r.1 []).eraseIdx r.2)
    let sz1 := d.sz - 1
    let x2 :=
      if r.1 ≠ x1.length - 1 then
        if should_merge sz1 ((x1.getD r.1 []).length + (x1.getD (r.1 + 1) []).length) then
          merge_chunk x1 r.1
        else x1
      else
        if 1 < x1.length ∧ (x1.getD r.1 []).length = 0 then x1.eraseIdx r.1 else x1
    let d2 : Deque := { sz := sz1, x := x2 }
    Except.ok (if g then gc d2 else d2, pos)

/-- Source `push_back(const T &value) { insert_at(size(), value); }`. -/
def push_back (d : Deque) (v : Int) (g : Bool) : Except Err Deque :=
  (insert_at d (d.sz : Int) v g).map Prod.fst

/-- Source `push_front(const T &value) { insert_at(0, value); }`. -/
def push_front (d : Deque) (v : Int) (g : Bool) : Except Err Deque :=
  (insert_at d 0 v g).map Prod.fst

/-- Source `pop_back() { remove_at(size() - 1); }` — on an empty container the
`size_t` value `size() - 1` wraps and converts back to the `int` `-1`. -/
def pop_back (d : Deque) (g : Bool) : Except Err Deque :=
  (remove_at d ((d.sz : Int) - 1) g).map Prod.fst

/-- Source `pop_front() { remove_at(0); }`. -/
def pop_front (d : Deque) (g : Bool) : Except Err Deque :=
  (remove_at d 0 g).map Prod.fst

/-- Source `front() { return access(0); }`. -/
def front (d : Deque) : Except Err Int := access d 0

/-- Source `back() { return access(size() - 1); }` (same `size_t` wrap as
`pop_back` when empty). -/
def back (d : Deque) : Except Err Int := access d ((d.sz : Int) - 1)

/-- Source `clear() { x.clear(); init(); }`. -/
def clear (_d : Deque) : Deque := deque_new

/-- An iterator: the owning-container pointer `q` (`none` models the null
pointer of a default-constructed iterator, `some id` an owning container
identity) and the logical position `pos`. -/
structure Iter where
  q : Option Nat
  pos : Int
deriving Repr, DecidableEq

/-- Source `check_owns(Tq *q) { if (!owns(q)) throw invalid_iterator(); }`
where `owns` compares the stored container pointer with `q`. -/
def check_owns (it : Iter) (owner : Nat) : Except Err Unit :=
  if it.q = some owner then Except.ok () else Except.error Err.invalidIterator

/-- Source `erase(iterator pos)`:
`pos.check_owns(this); return iterator(this, remove_at(pos.pos));`. -/
def erase (d : Deque) (owner : Nat) (it : Iter) (g : Bool) : Except Err (Deque × Iter) :=
  match check_owns it owner with
  | Except.error e => Except.error e
  | Except.ok _ =>
    (remove_at d it.pos g).map fun r => (r.1, { q := some owner, pos := r.2 })

/-- Source `insert(iterator pos, const T &value)`:
`pos.check_owns(this); return iterator(this, insert_at(pos.pos, value));`. -/
def insert (d : Deque) (owner : Nat) (it : Iter) (v : Int) (g : Bool) :
    Except Err (Deque × Iter) :=
  match check_owns it owner with
  | Except.error e => Except.error e
  | Except.ok _ =>
    (insert_at d it.pos v g).map fun r => (r.1, { q := some owner, pos := r.2 })

/-- Source `operator*()` : `if (!elem) elem = &q->access(pos); return *elem;`.
There is no null check: with a null container pointer the code dereferences
the null pointer (undefined behaviour), modelled as `none`.  With an owner the
result is exactly `access(pos)`.  `env` maps container identities to their
states. -/
def iter_deref (env : Nat → Deque) (it : Iter) : Option (Except Err Int) :=
  match it.q with
  | none => none
  | some qi => some (access (env qi) it.pos)

/-- One public operation, with the outcome `g` of the `rand()` draw of its
probabilistic `gc()` call where the source has one. -/
inductive Op where
  | pushB (v : Int) (g : Bool)
  | pushF (v : Int) (g : Bool)
  | popB (g : Bool)
  | popF (g : Bool)
  | ins (pos : Int) (v : Int) (g : Bool)
  | rem (pos : Int) (g : Bool)
  | gcOp
  | clearOp
deriving Repr, DecidableEq

/-- Apply one public operation.  A raised exception leaves the state
unchanged: every mutator of the source throws (if at all) before its first
write. -/
def step (d : Deque) : Op → Deque
  | Op.pushB v g => match push_back d v g with | Except.ok d2 => d2 | Except.error _ => d
  | Op.pushF v g => match push_front d v g with | Except.ok d2 => d2 | Except.error _ => d
  | Op.popB g => match pop_back d g with | Except.ok d2 => d2 | Except.error _ => d
  | Op.popF g => match pop_front d g with | Except.ok d2 => d2 | Except.error _ => d
  | Op.ins pos v g => match insert_at d pos v g with | Except.ok r => r.1 | Except.error _ => d
  | Op.rem pos g => match remove_at d pos g with | Except.ok r => r.1 | Except.error _ => d
  | Op.gcOp => gc d
  | Op.clearOp => clear d

/-- Run a sequence of public operations from a given state. -/
def runFrom (d : Deque) : List Op → Deque
  | [] => d
  | o :: rest => runFrom (step d o) rest

/-- Run a sequence of public operations from a freshly constructed container. -/
def run (ops : List Op) : Deque := runFrom deque_new ops

/-- Does this operation succeed as a push/insert on state `d`? -/
def pushDelta (d : Deque) : Op → Nat
  | Op.pushB v g => match push_back d v g with | Except.ok _ => 1 | Except.error _ => 0
  | Op.pushF v g => match push_front d v g with | Except.ok _ => 1 | Except.error _ => 0
  | Op.ins pos v g => match insert_at d pos v g with | Except.ok _ => 1 | Except.error _ => 0
  | _ => 0

/-- Does this operation succeed as a pop/erase on state `d`? -/
def popDelta (d : Deque) : Op → Nat
  | Op.popB g => match pop_back d g with | Except.ok _ => 1 | Except.error _ => 0
  | Op.popF g => match pop_front d g with | Except.ok _ => 1 | Except.error _ => 0
  | Op.rem pos g => match remove_at d pos g with | Except.ok _ => 1 | Except.error _ => 0
  | _ => 0

/-- Number of successful push/insert operations along a run from `d`. -/
def pushes (d : Deque) : List Op → Nat
  | [] => 0
  | o :: rest => pushDelta d o + pushes (step d o) rest

/-- Number of successful pop/erase operations along a run from `d`. -/
def pops (d : Deque) : List Op → Nat
  | [] => 0
  | o :: rest => popDelta d o + pops (step d o) rest

/-- The basic state invariant: `_size` is the total number of stored elements
(spec invariant I1) and the chunk table is never empty (spec §3, chunk
table "always non-empty"). -/
def Inv (d : Deque) : Prop := d.sz = d.x.flatten.length ∧ d.x ≠ []

/-- Is `o` the `clear` operation? -/
def Op.isClear : Op → Bool
  | Op.clearOp => true
  | _ => false

deriving instance DecidableEq for Except

/-- An all-ones chunk of length `n`: the concrete traces below push only the
value `1`, so every chunk they produce has this shape. -/
def ones (n : Nat) : Chunk := List.replicate n 1

/-- Shorthand for a state whose chunks are all-ones chunks of the given
lengths. -/
def st (sz : Nat) (lens : List Nat) : Deque := { sz := sz, x := lens.map ones }

/-- A block of `n` `push_front(1)` calls, none of which draws the `gc()`. -/
def pushSeg (n : Nat) : List Op := List.replicate n (Op.pushF 1 false)

/-- A block of `n` `pop_back()` calls, none of which draws the `gc()`. -/
def popSeg (n : Nat) : List Op := List.replicate n (Op.popB false)

/-- 174 `push_front(1)` calls followed by 133 `pop_back()` calls (written in
blocks so that the execution can be checked block by block). -/
def trace5prev : List Op :=
  pushSeg 25 ++ (pushSeg 25 ++ (pushSeg 25 ++ (pushSeg 25 ++ (pushSeg 25 ++ (pushSeg 25 ++
    (pushSeg 24 ++ (popSeg 25 ++ (popSeg 25 ++ (popSeg 25 ++ (popSeg 25 ++ (popSeg 25 ++
      popSeg 8)))))))))))

/-- `trace5prev` followed by one more `pop_back()`. -/
def trace5 : List Op := trace5prev ++ popSeg 1

/-- 16 `push_back(1)` calls followed by 8 `pop_front()` calls. -/
def trace6 : List Op := List.replicate 16 (Op.pushB 1 false) ++ List.replicate 8 (Op.popF false)

/-! ### Generic list lemmas -/

theorem runFrom_append (d : Deque) (l1 l2 : List Op) :
    runFrom d (l1 ++ l2) = runFrom (runFrom d l1) l2 := by
  induction l1 generalizing d with
  | nil => rfl
  | cons o rest ih =>
    simp only [List.cons_append, runFrom]
    exact ih (step d o)

theorem insertIdx_append_left (a b : List Int) (n : Nat) (h : n ≤ a.length) (v : Int) :
    (a ++ b).insertIdx n v = a.insertIdx n v ++ b := by
  induction a generalizing n with
  | nil =>
    have hn : n = 0 := by simpa using h
    subst hn
    simp
  | cons y ys ih =>
    cases n with
    | zero => simp
    | succ m =>
      simp only [List.cons_append, List.insertIdx_succ_cons]
      rw [ih m (by simpa using h)]

theorem insertIdx_append_right (a b : List Int) (n : Nat) (v : Int) :
    (a ++ b).insertIdx (a.length + n) v = a ++ b.insertIdx n v := by
  induction a with
  | nil => simp
  | cons y ys ih =>
    simp only [List.cons_append, List.length_cons]
    have : ys.length + 1 + n = (ys.length + n) + 1 := by omega
    rw [this, List.insertIdx_succ_cons, ih]

theorem eraseIdx_append_left (a b : List Int) (n : Nat) (h : n < a.length) :
    (a ++ b).eraseIdx n = a.eraseIdx n ++ b := by
  induction a generalizing n with
  | nil => simp at h
  | cons y ys ih =>
    cases n with
    | zero => simp
    | succ m =>
      simp only [List.cons_append, List.eraseIdx_cons_succ]
      rw [ih m (by simpa using h)]

theorem eraseIdx_append_right (a b : List Int) (n : Nat) :
    (a ++ b).eraseIdx (a.length + n) = a ++ b.eraseIdx n := by
  induction a with
  | nil => simp
  | cons y ys ih =>
    simp only [List.cons_append, List.length_cons]
    have : ys.length + 1 + n = (ys.length + n) + 1 := by omega
    rw [this, List.eraseIdx_cons_succ, ih]

theorem getD_append_left (a b : List Int) (n : Nat) (h : n < a.length) :
    (a ++ b).getD n 0 = a.getD n 0 := by
  induction a generalizing n with
  | nil => simp at h
  | cons y ys ih =>
    cases n with
    | zero => simp
    | succ m =>
      simp only [List.cons_append, List.getD_cons_succ]
      exact ih m (by simpa using h)

theorem getD_append_right (a b : List Int) (n : Nat) :
    (a ++ b).getD (a.length + n) 0 = b.getD n 0 := by
  induction a with
  | nil => simp
  | cons y ys ih =>
    simp only [List.cons_append, List.length_cons]
    have : ys.length + 1 + n = (ys.length + n) + 1 := by omega
    rw [this, List.getD_cons_succ, ih]

/-! ### Correctness of the four locator scan loops

Each spec yields: the produced chunk index is in range, the produced offset is
in range for that chunk (strictly for element access, up to the length for
end-allowing insertion), and the number of elements in the chunks before the
produced index plus the offset is the scanned logical position. -/

theorem scanFwdGe_spec (cs : List Chunk) (p : Nat) (h : p < cs.flatten.length) :
    (scanFwdGe cs p).1 < cs.length ∧
    (scanFwdGe cs p).2 < (cs.getD (scanFwdGe cs p).1 []).length ∧
    ((cs.take (scanFwdGe cs p).1).flatten).length + (scanFwdGe cs p).2 = p := by
  induction cs generalizing p with
  | nil => simp at h
  | cons c rest ih =>
    by_cases hc : c.length ≤ p
    · have h2 : p - c.length < rest.flatten.length := by
        simp only [List.flatten_cons, List.length_append] at h; omega
      obtain ⟨ih1, ih2, ih3⟩ := ih (p - c.length) h2
      simp only [scanFwdGe, if_pos hc]
      refine ⟨by simpa using ih1, by simpa using ih2, ?_⟩
      simp only [List.take_succ_cons, List.flatten_cons, List.length_append]
      omega
    · simp only [scanFwdGe, if_neg hc]
      exact ⟨by simp, by simpa using Nat.lt_of_not_le hc, by simp⟩

theorem scanFwdGt_spec (cs : List Chunk) (p : Nat) (h : p ≤ cs.flatten.length)
    (hne : cs ≠ []) :
    (scanFwdGt cs p).1 < cs.length ∧
    (scanFwdGt cs p).2 ≤ (cs.getD (scanFwdGt cs p).1 []).length ∧
    ((cs.take (scanFwdGt cs p).1).flatten).length + (scanFwdGt cs p).2 = p := by
  induction cs generalizing p with
  | nil => exact absurd rfl hne
  | cons c rest ih =>
    by_cases hc : c.length < p
    · have hrest : rest ≠ [] := by
        rintro rfl
        simp at h
        omega
      have h2 : p - c.length ≤ rest.flatten.length := by
        simp only [List.flatten_cons, List.length_append] at h; omega
      obtain ⟨ih1, ih2, ih3⟩ := ih (p - c.length) h2 hrest
      simp only [scanFwdGt, if_pos hc]
      refine ⟨by simpa using ih1, by simpa using ih2, ?_⟩
      simp only [List.take_succ_cons, List.flatten_cons, List.length_append]
      omega
    · simp only [scanFwdGt, if_neg hc]
      exact ⟨by simp, by simpa using Nat.le_of_not_lt hc, by simp⟩

theorem scanBwdGt_spec (cs : List Chunk) (p : Nat) (h1 : 1 ≤ p)
    (h : p ≤ cs.flatten.length) :
    (scanBwdGt cs p).1 < cs.length ∧
    (scanBwdGt cs p).2 < (cs.getD (scanBwdGt cs p).1 []).length ∧
    ((cs.take ((scanBwdGt cs p).1 + 1)).flatten).length = p + (scanBwdGt cs p).2 := by
  induction cs generalizing p with
  | nil =>
    simp only [List.flatten_nil, List.length_nil] at h
    omega
  | cons c rest ih =>
    by_cases hc : c.length < p
    · have h2 : p - c.length ≤ rest.flatten.length := by
        simp only [List.flatten_cons, List.length_append] at h; omega
      obtain ⟨ih1, ih2, ih3⟩ := ih (p - c.length) (by omega) h2
      simp only [scanBwdGt, if_pos hc]
      refine ⟨by simpa using ih1, by simpa using ih2, ?_⟩
      simp only [List.take_succ_cons, List.flatten_cons, List.length_append]
      omega
    · simp only [scanBwdGt, if_neg hc]
      have hc2 : p ≤ c.length := Nat.le_of_not_lt hc
      refine ⟨by simp, ?_, ?_⟩
      · simp only [List.getD_cons_zero]
        omega
      · simp only [List.take_succ_cons, List.take_zero, List.flatten_cons,
          List.flatten_nil, List.length_append, List.length_nil]
        omega

theorem scanBwdAllowEnd_spec (cs : List Chunk) (p : Nat)
    (h : p ≤ cs.flatten.length) (hne : cs ≠ []) :
    (scanBwdAllowEnd cs p).1 < cs.length ∧
    (scanBwdAllowEnd cs p).2 ≤ (cs.getD (scanBwdAllowEnd cs p).1 []).length ∧
    ((cs.take ((scanBwdAllowEnd cs p).1 + 1)).flatten).length
      = p + (scanBwdAllowEnd cs p).2 := by
  induction cs generalizing p with
  | nil => exact absurd rfl hne
  | cons c rest ih =>
    cases rest with
    | nil =>
      simp only [List.flatten_cons, List.flatten_nil, List.append_nil] at h
      simp only [scanBwdAllowEnd]
      refine ⟨by simp, ?_, ?_⟩
      · simp only [List.getD_cons_zero]
        omega
      · simp only [List.take_succ_cons, List.take_zero, List.flatten_cons,
          List.flatten_nil, List.length_append, List.length_nil]
        omega
    | cons c2 rest2 =>
      by_cases hc : c.length ≤ p
      · have h2 : p - c.length ≤ (c2 :: rest2).flatten.length := by
          simp only [List.flatten_cons, List.length_append] at h ⊢; omega
        obtain ⟨ih1, ih2, ih3⟩ := ih (p - c.length) h2 (by simp)
        simp only [scanBwdAllowEnd, if_pos hc]
        refine ⟨by simpa using ih1, by simpa using ih2, ?_⟩
        simp only [List.take_succ_cons, List.flatten_cons, List.length_append] at ih3 ⊢
        omega
      · simp only [scanBwdAllowEnd, if_neg hc]
        have hc2 : p ≤ c.length := by omega
        refine ⟨by simp, ?_, ?_⟩
        · simp only [List.getD_cons_zero]
          omega
        · simp only [List.take_succ_cons, List.take_zero, List.flatten_cons,
            List.flatten_nil, List.length_append, List.length_nil]
          omega

/-! ### Editing one chunk, seen through the concatenation -/

theorem getD_flatten (cs : List Chunk) (i off : Nat)
    (hi : i < cs.length) (hoff : off < (cs.getD i []).length) :
    cs.flatten.getD ((cs.take i).flatten.length + off) 0 = (cs.getD i []).getD off 0 := by
  induction cs generalizing i with
  | nil => simp at hi
  | cons c rest ih =>
    cases i with
    | zero =>
      simp only [List.getD_cons_zero] at hoff ⊢
      simp only [List.take_zero, List.flatten_nil, List.length_nil, Nat.zero_add,
        List.flatten_cons]
      exact getD_append_left c rest.flatten off hoff
    | succ j =>
      simp only [List.getD_cons_succ] at hoff ⊢
      simp only [List.take_succ_cons, List.flatten_cons, List.length_append]
      rw [Nat.add_assoc, getD_append_right]
      exact ih j (by simpa using hi) hoff

theorem flatten_set_insertIdx (cs : List Chunk) (i off : Nat) (v : Int)
    (hi : i < cs.length) (hoff : off ≤ (cs.getD i []).length) :
    (cs.set i ((cs.getD i []).insertIdx off v)).flatten
      = cs.flatten.insertIdx ((cs.take i).flatten.length + off) v := by
  induction cs generalizing i with
  | nil => simp at hi
  | cons c rest ih =>
    cases i with
    | zero =>
      simp only [List.getD_cons_zero] at hoff ⊢
      simp only [List.set_cons_zero, List.take_zero, List.flatten_nil,
        List.length_nil, Nat.zero_add, List.flatten_cons]
      exact (insertIdx_append_left c rest.flatten off hoff v).symm
    | succ j =>
      simp only [List.getD_cons_succ] at hoff ⊢
      simp only [List.set_cons_succ, List.take_succ_cons, List.flatten_cons,
        List.length_append]
      rw [Nat.add_assoc, insertIdx_append_right]
      rw [ih j (by simpa using hi) hoff]

theorem flatten_set_eraseIdx (cs : List Chunk) (i off : Nat)
    (hi : i < cs.length) (hoff : off < (cs.getD i []).length) :
    (cs.set i ((cs.getD i []).eraseIdx off)).flatten
      = cs.flatten.eraseIdx ((cs.take i).flatten.length + off) := by
  induction cs generalizing i with
  | nil => simp at hi
  | cons c rest ih =>
    cases i with
    | zero =>
      simp only [List.getD_cons_zero] at hoff ⊢
      simp only [List.set_cons_zero, List.take_zero, List.flatten_nil,
        List.length_nil, Nat.zero_add, List.flatten_cons]
      exact (eraseIdx_append_left c rest.flatten off hoff).symm
    | succ j =>
      simp only [List.getD_cons_succ] at hoff ⊢
      simp only [List.set_cons_succ, List.take_succ_cons, List.flatten_cons,
        List.length_append]
      rw [Nat.add_assoc, eraseIdx_append_right]
      rw [ih j (by simpa using hi) hoff]

/-! ### The rebalancing helpers preserve the stored sequence -/

theorem split_chunk_cons_succ (c : Chunk) (rest : List Chunk) (j : Nat) :
    split_chunk (c :: rest) (j + 1) = c :: split_chunk rest j := rfl

theorem split_chunk_zero (c : Chunk) (rest : List Chunk) :
    split_chunk (c :: rest) 0 = c.take (c.length / 2) :: c.drop (c.length / 2) :: rest := rfl

theorem split_chunk_flatten (x : List Chunk) (i : Nat) (hi : i < x.length) :
    (split_chunk x i).flatten = x.flatten ∧ (split_chunk x i).length = x.length + 1 := by
  induction x generalizing i with
  | nil => simp at hi
  | cons c rest ih =>
    cases i with
    | zero =>
      rw [split_chunk_zero]
      constructor
      · simp only [List.flatten_cons, ← List.append_assoc, List.take_append_drop]
      · simp
    | succ j =>
      rw [split_chunk_cons_succ]
      obtain ⟨ih1, ih2⟩ := ih j (by simpa using hi)
      constructor
      · simp only [List.flatten_cons, ih1]
      · simp only [List.length_cons, ih2]

theorem merge_chunk_cons_succ (c : Chunk) (rest : List Chunk) (j : Nat) :
    merge_chunk (c :: rest) (j + 1) = c :: merge_chunk rest j := rfl

theorem merge_chunk_zero (a b : Chunk) (rest : List Chunk) :
    merge_chunk (a :: b :: rest) 0 = (a ++ b) :: rest := rfl

theorem merge_chunk_flatten (x : List Chunk) (i : Nat) (hi : i + 1 < x.length) :
    (merge_chunk x i).flatten = x.flatten ∧ (merge_chunk x i).length + 1 = x.length := by
  induction x generalizing i with
  | nil => simp at hi
  | cons c rest ih =>
    cases i with
    | zero =>
      cases rest with
      | nil => simp at hi
      | cons c2 rest2 =>
        rw [merge_chunk_zero]
        simp [List.flatten_cons]
    | succ j =>
      rw [merge_chunk_cons_succ]
      obtain ⟨ih1, ih2⟩ := ih j (by simpa using hi)
      constructor
      · simp only [List.flatten_cons, ih1]
      · simp only [List.length_cons, ih2]

theorem clearZeroRun_flatten : ∀ (x : List Chunk), (clearZeroRun x).flatten = x.flatten
  | [] => rfl
  | [_] => rfl
  | c :: d :: rest => by
    by_cases hc : c.length = 0
    · have hcnil : c = [] := List.eq_nil_of_length_eq_zero hc
      subst hcnil
      simp [clearZeroRun, clearZeroRun_flatten rest]
    · simp [clearZeroRun, hc, clearZeroRun_flatten (d :: rest)]

theorem clearZeroRun_ne_nil : ∀ (x : List Chunk), x ≠ [] → clearZeroRun x ≠ []
  | [], h => absurd rfl h
  | [c], _ => by simp [clearZeroRun]
  | c :: d :: rest, _ => by
    by_cases hc : c.length = 0 <;> simp [clearZeroRun, hc]

theorem splitRun_flatten (sz : Nat) : ∀ (x : List Chunk), (splitRun sz x).flatten = x.flatten
  | [] => rfl
  | c :: rest => by
    by_cases hs : should_split sz c.length = true
    · simp only [splitRun, if_pos hs, List.flatten_cons, splitRun_flatten sz rest,
        ← List.append_assoc, List.take_append_drop]
    · simp only [splitRun, if_neg hs, List.flatten_cons, splitRun_flatten sz rest]

theorem splitRun_ne_nil (sz : Nat) : ∀ (x : List Chunk), x ≠ [] → splitRun sz x ≠ []
  | [], h => absurd rfl h
  | c :: rest, _ => by
    by_cases hs : should_split sz c.length = true <;> simp [splitRun, hs]

theorem mergeInto_flatten (sz : Nat) :
    ∀ (a : Chunk) (l : List Chunk), (mergeInto sz a l).flatten = a ++ l.flatten
  | a, [] => by simp [mergeInto]
  | a, b :: rest => by
    by_cases hm : should_merge sz (a.length + b.length) = true
    · simp only [mergeInto, if_pos hm, mergeInto_flatten sz (a ++ b) rest,
        List.flatten_cons, List.append_assoc]
    · simp only [mergeInto, if_neg hm, List.flatten_cons,
        mergeInto_flatten sz b rest]

theorem mergeRun_flatten (sz : Nat) (x : List Chunk) :
    (mergeRun sz x).flatten = x.flatten := by
  cases x with
  | nil => rfl
  | cons a rest => simp [mergeRun, mergeInto_flatten, List.flatten_cons]

theorem mergeInto_ne_nil (sz : Nat) :
    ∀ (a : Chunk) (l : List Chunk), mergeInto sz a l ≠ []
  | a, [] => by simp [mergeInto]
  | a, b :: rest => by
    by_cases hm : should_merge sz (a.length + b.length) = true
    · simpa only [mergeInto, if_pos hm] using mergeInto_ne_nil sz (a ++ b) rest
    · simp [mergeInto, if_neg hm]

theorem mergeRun_ne_nil (sz : Nat) (x : List Chunk) (h : x ≠ []) :
    mergeRun sz x ≠ [] := by
  cases x with
  | nil => exact absurd rfl h
  | cons a rest => simpa [mergeRun] using mergeInto_ne_nil sz a rest

theorem gc_sz (d : Deque) : (gc d).sz = d.sz := rfl

theorem gc_flatten (d : Deque) : (gc d).x.flatten = d.x.flatten := by
  simp [gc, mergeRun_flatten, splitRun_flatten, clearZeroRun_flatten]

theorem gc_ne_nil (d : Deque) (h : d.x ≠ []) : (gc d).x ≠ [] :=
  mergeRun_ne_nil _ _ (splitRun_ne_nil _ _ (clearZeroRun_ne_nil _ h))

theorem Inv_gc (d : Deque) (h : Inv d) : Inv (gc d) :=
  ⟨by rw [gc_sz, gc_flatten]; exact h.1, gc_ne_nil d h.2⟩

/-! ### Locator correctness -/

theorem getD_reverse (cs : List Chunk) (j : Nat) (h : j < cs.length) :
    cs.reverse.getD j [] = cs.getD (cs.length - 1 - j) [] := by
  have h2 : j < cs.reverse.length := by simpa using h
  rw [List.getD_eq_getElem?_getD, List.getD_eq_getElem?_getD,
    List.getElem?_eq_getElem h2, List.getElem?_eq_getElem (by omega)]
  simp [List.getElem_reverse]

theorem flatten_length_reverse (cs : List Chunk) :
    (cs.reverse).flatten.length = cs.flatten.length := by
  simp [List.length_flatten, List.map_reverse, List.sum_reverse]

theorem flatten_take_drop_length (cs : List Chunk) (i : Nat) :
    ((cs.take i).flatten).length + ((cs.drop i).flatten).length = cs.flatten.length := by
  conv_rhs => rw [← List.take_append_drop i cs]
  rw [List.flatten_append, List.length_append]

theorem find_at_spec (d : Deque) (pos : Nat) (hInv : Inv d) (hpos : pos < d.sz) :
    (find_at d pos).1 < d.x.length ∧
    (find_at d pos).2 < (d.x.getD (find_at d pos).1 []).length ∧
    ((d.x.take (find_at d pos).1).flatten).length + (find_at d pos).2 = pos := by
  obtain ⟨hsz, hne⟩ := hInv
  have hxpos : 0 < d.x.length := List.length_pos.mpr hne
  by_cases hbr : pos ≤ d.sz / 2
  · simpa only [find_at, if_pos hbr] using scanFwdGe_spec d.x pos (by omega)
  · have hp1 : 1 ≤ d.sz - pos := by omega
    have hp2 : d.sz - pos ≤ (d.x.reverse).flatten.length := by
      rw [flatten_length_reverse]; omega
    obtain ⟨hj, hoffR, heq⟩ := scanBwdGt_spec d.x.reverse (d.sz - pos) hp1 hp2
    rw [List.length_reverse] at hj
    rw [getD_reverse d.x _ hj] at hoffR
    simp only [find_at, if_neg hbr]
    refine ⟨by omega, hoffR, ?_⟩
    rw [List.take_reverse, flatten_length_reverse] at heq
    have hsplit := flatten_take_drop_length d.x (d.x.length - ((scanBwdGt d.x.reverse (d.sz - pos)).1 + 1))
    have hidx : d.x.length - ((scanBwdGt d.x.reverse (d.sz - pos)).1 + 1)
        = d.x.length - 1 - (scanBwdGt d.x.reverse (d.sz - pos)).1 := by omega
    rw [hidx] at heq hsplit
    omega

theorem find_at_allow_end_spec (d : Deque) (pos : Nat) (hInv : Inv d) (hpos : pos ≤ d.sz) :
    (find_at_allow_end d pos).1 < d.x.length ∧
    (find_at_allow_end d pos).2 ≤ (d.x.getD (find_at_allow_end d pos).1 []).length ∧
    ((d.x.take (find_at_allow_end d pos).1).flatten).length + (find_at_allow_end d pos).2
      = pos := by
  obtain ⟨hsz, hne⟩ := hInv
  have hxpos : 0 < d.x.length := List.length_pos.mpr hne
  by_cases hbr : pos ≤ d.sz / 2
  · simpa only [find_at_allow_end, if_pos hbr] using scanFwdGt_spec d.x pos (by omega) hne
  · have hp2 : d.sz - pos ≤ (d.x.reverse).flatten.length := by
      rw [flatten_length_reverse]; omega
    have hrne : d.x.reverse ≠ [] := by simpa using hne
    obtain ⟨hj, hoffR, heq⟩ := scanBwdAllowEnd_spec d.x.reverse (d.sz - pos) hp2 hrne
    rw [List.length_reverse] at hj
    rw [getD_reverse d.x _ hj] at hoffR
    simp only [find_at_allow_end, if_neg hbr]
    refine ⟨by omega, hoffR, ?_⟩
    rw [List.take_reverse, flatten_length_reverse] at heq
    have hsplit := flatten_take_drop_length d.x
      (d.x.length - ((scanBwdAllowEnd d.x.reverse (d.sz - pos)).1 + 1))
    have hidx : d.x.length - ((scanBwdAllowEnd d.x.reverse (d.sz - pos)).1 + 1)
        = d.x.length - 1 - (scanBwdAllowEnd d.x.reverse (d.sz - pos)).1 := by omega
    rw [hidx] at heq hsplit
    omega

/-! ### Correctness of `access` -/

theorem access_err (d : Deque) (pos : Int) (h : pos < 0 ∨ (d.sz : Int) ≤ pos) :
    access d pos = Except.error Err.indexOutOfBound := by
  have hthrow : throw_if_out_of_bound d pos false = Except.error Err.indexOutOfBound := by
    unfold throw_if_out_of_bound
    rw [if_neg (by simp), if_pos h]
  unfold access
  rw [hthrow]

theorem access_ok (d : Deque) (pos : Int) (hInv : Inv d) (h0 : 0 ≤ pos)
    (h1 : pos < (d.sz : Int)) :
    access d pos = Except.ok (d.x.flatten.getD pos.toNat 0) := by
  have hthrow : throw_if_out_of_bound d pos false = Except.ok () := by
    unfold throw_if_out_of_bound
    rw [if_neg (by simp), if_neg (by omega)]
  have hposN : pos.toNat < d.sz := by omega
  obtain ⟨hi, hoff, hpre⟩ := find_at_spec d pos.toNat hInv hposN
  have hgd := getD_flatten d.x (find_at d pos.toNat).1 (find_at d pos.toNat).2 hi hoff
  rw [hpre] at hgd
  unfold access
  rw [hthrow, hgd]

/-! ### The bound check, case by case -/

theorem throw_ok_allow_end (d : Deque) (pos : Int) (h0 : 0 ≤ pos) (h1 : pos ≤ (d.sz : Int)) :
    throw_if_out_of_bound d pos true = Except.ok () := by
  unfold throw_if_out_of_bound
  by_cases hE : pos = (d.sz : Int)
  · rw [if_pos ⟨rfl, hE⟩]
  · rw [if_neg (by simp [hE]), if_neg (by omega)]

theorem throw_err_allow_end (d : Deque) (pos : Int) (h : pos < 0 ∨ (d.sz : Int) < pos) :
    throw_if_out_of_bound d pos true = Except.error Err.indexOutOfBound := by
  unfold throw_if_out_of_bound
  rw [if_neg (by rintro ⟨-, h2⟩; omega), if_pos (by omega)]

theorem throw_ok_strict (d : Deque) (pos : Int) (h0 : 0 ≤ pos) (h1 : pos < (d.sz : Int)) :
    throw_if_out_of_bound d pos false = Except.ok () := by
  unfold throw_if_out_of_bound
  rw [if_neg (by simp), if_neg (by omega)]

theorem throw_err_strict (d : Deque) (pos : Int) (h : pos < 0 ∨ (d.sz : Int) ≤ pos) :
    throw_if_out_of_bound d pos false = Except.error Err.indexOutOfBound := by
  unfold throw_if_out_of_bound
  rw [if_neg (by simp), if_pos h]

/-! ### Correctness of the two mutators -/

theorem getD_set_self (cs : List Chunk) (i : Nat) (y : Chunk) (h : i < cs.length) :
    (cs.set i y).getD i [] = y := by
  rw [List.getD_eq_getElem?_getD, List.getElem?_set_self h]
  rfl

theorem flatten_eraseIdx_nil (cs : List Chunk) (i : Nat) (hi : i < cs.length)
    (hemp : (cs.getD i []).length = 0) : (cs.eraseIdx i).flatten = cs.flatten := by
  induction cs generalizing i with
  | nil => simp at hi
  | cons c rest ih =>
    cases i with
    | zero =>
      have hcnil : c = [] := by
        simp only [List.getD_cons_zero] at hemp
        exact List.eq_nil_of_length_eq_zero hemp
      subst hcnil
      simp
    | succ j =>
      simp only [List.getD_cons_succ] at hemp
      simp only [List.eraseIdx_cons_succ, List.flatten_cons,
        ih j (by simpa using hi) hemp]

theorem insert_at_err (d : Deque) (pos v : Int) (g : Bool)
    (h : pos < 0 ∨ (d.sz : Int) < pos) :
    insert_at d pos v g = Except.error Err.indexOutOfBound := by
  unfold insert_at
  rw [throw_err_allow_end d pos h]

theorem remove_at_err (d : Deque) (pos : Int) (g : Bool)
    (h : pos < 0 ∨ (d.sz : Int) ≤ pos) :
    remove_at d pos g = Except.error Err.indexOutOfBound := by
  unfold remove_at
  rw [throw_err_strict d pos h]

theorem insert_at_ok (d : Deque) (pos v : Int) (g : Bool) (hInv : Inv d)
    (h0 : 0 ≤ pos) (h1 : pos ≤ (d.sz : Int)) :
    ∃ d2, insert_at d pos v g = Except.ok (d2, pos) ∧ d2.sz = d.sz + 1 ∧
      d2.x.flatten = d.x.flatten.insertIdx pos.toNat v ∧ Inv d2 := by
  have hposN : pos.toNat ≤ d.sz := by omega
  obtain ⟨hi, hoff, hpre⟩ := find_at_allow_end_spec d pos.toNat hInv hposN
  obtain ⟨hsz, hne⟩ := hInv
  simp only [insert_at, throw_ok_allow_end d pos h0 h1]
  set r := find_at_allow_end d pos.toNat with hr
  set x1 := d.x.set r.1 ((d.x.getD r.1 []).insertIdx r.2 v) with hx1
  have hx1len : x1.length = d.x.length := by rw [hx1, List.length_set]
  have hx1flat : x1.flatten = d.x.flatten.insertIdx pos.toNat v := by
    rw [hx1, flatten_set_insertIdx d.x r.1 r.2 v hi hoff, hpre]
  have hx1flatlen : x1.flatten.length = d.sz + 1 := by
    rw [hx1flat, List.length_insertIdx _ _ (by omega)]
    omega
  have hx1ne : x1 ≠ [] := by
    refine List.length_pos.mp ?_
    rw [hx1len]
    exact List.length_pos.mpr hne
  set x2 := if should_split (d.sz + 1) ((x1.getD r.1 []).length) then split_chunk x1 r.1
    else x1 with hx2
  have hx2flat : x2.flatten = x1.flatten := by
    rw [hx2]
    by_cases hsp : should_split (d.sz + 1) ((x1.getD r.1 []).length) = true
    · rw [if_pos hsp]
      exact (split_chunk_flatten x1 r.1 (by omega)).1
    · rw [if_neg hsp]
  have hx2ne : x2 ≠ [] := by
    rw [hx2]
    by_cases hsp : should_split (d.sz + 1) ((x1.getD r.1 []).length) = true
    · rw [if_pos hsp]
      refine List.length_pos.mp ?_
      rw [(split_chunk_flatten x1 r.1 (by omega)).2]
      omega
    · rw [if_neg hsp]
      exact hx1ne
  set d2 : Deque := { sz := d.sz + 1, x := x2 } with hd2
  have hInv2 : Inv d2 := by
    constructor
    · show d.sz + 1 = x2.flatten.length
      rw [hx2flat, hx1flatlen]
    · exact hx2ne
  cases g with
  | false =>
    exact ⟨d2, rfl, rfl, by rw [show d2.x = x2 from rfl, hx2flat, hx1flat], hInv2⟩
  | true =>
    refine ⟨gc d2, rfl, gc_sz d2, ?_, Inv_gc d2 hInv2⟩
    rw [gc_flatten d2, show d2.x = x2 from rfl, hx2flat, hx1flat]

theorem remove_at_ok (d : Deque) (pos : Int) (g : Bool) (hInv : Inv d)
    (h0 : 0 ≤ pos) (h1 : pos < (d.sz : Int)) :
    ∃ d2, remove_at d pos g = Except.ok (d2, pos) ∧ d2.sz = d.sz - 1 ∧
      d2.x.flatten = d.x.flatten.eraseIdx pos.toNat ∧ Inv d2 := by
  have hposN : pos.toNat < d.sz := by omega
  obtain ⟨hi, hoff, hpre⟩ := find_at_spec d pos.toNat hInv hposN
  obtain ⟨hsz, hne⟩ := hInv
  simp only [remove_at, throw_ok_strict d pos h0 h1]
  set r := find_at d pos.toNat with hr
  set x1 := d.x.set r.1 ((d.x.getD r.1 []).eraseIdx r.2) with hx1
  have hx1len : x1.length = d.x.length := by rw [hx1, List.length_set]
  have hx1pos : 0 < x1.length := by
    rw [hx1len]
    exact List.length_pos.mpr hne
  have hx1flat : x1.flatten = d.x.flatten.eraseIdx pos.toNat := by
    rw [hx1, flatten_set_eraseIdx d.x r.1 r.2 hi hoff, hpre]
  have hx1flatlen : x1.flatten.length = d.sz - 1 := by
    rw [hx1flat, List.length_eraseIdx, if_pos (by omega)]
    omega
  set x2 :=
    if r.1 ≠ x1.length - 1 then
      if should_merge (d.sz - 1) ((x1.getD r.1 []).length + (x1.getD (r.1 + 1) []).length) then
        merge_chunk x1 r.1
      else x1
    else
      if 1 < x1.length ∧ (x1.getD r.1 []).length = 0 then x1.eraseIdx r.1 else x1
    with hx2
  have hx2good : x2.flatten = x1.flatten ∧ x2 ≠ [] := by
    rw [hx2]
    by_cases hlast : r.1 ≠ x1.length - 1
    · rw [if_pos hlast]
      by_cases hm : should_merge (d.sz - 1)
          ((x1.getD r.1 []).length + (x1.getD (r.1 + 1) []).length) = true
      · rw [if_pos hm]
        have hi2 : r.1 + 1 < x1.length := by omega
        obtain ⟨hmf, hml⟩ := merge_chunk_flatten x1 r.1 hi2
        exact ⟨hmf, List.length_pos.mp (by omega)⟩
      · rw [if_neg hm]
        exact ⟨rfl, List.length_pos.mp hx1pos⟩
    · rw [if_neg hlast]
      by_cases hz : 1 < x1.length ∧ (x1.getD r.1 []).length = 0
      · rw [if_pos hz]
        refine ⟨flatten_eraseIdx_nil x1 r.1 (by omega) hz.2, ?_⟩
        refine List.length_pos.mp ?_
        rw [List.length_eraseIdx, if_pos (by omega)]
        omega
      · rw [if_neg hz]
        exact ⟨rfl, List.length_pos.mp hx1pos⟩
  set d2 : Deque := { sz := d.sz - 1, x := x2 } with hd2
  have hInv2 : Inv d2 := by
    constructor
    · show d.sz - 1 = x2.flatten.length
      rw [hx2good.1, hx1flatlen]
    · exact hx2good.2
  cases g with
  | false =>
    exact ⟨d2, rfl, rfl, by rw [show d2.x = x2 from rfl, hx2good.1, hx1flat], hInv2⟩
  | true =>
    refine ⟨gc d2, rfl, gc_sz d2, ?_, Inv_gc d2 hInv2⟩
    rw [gc_flatten d2, show d2.x = x2 from rfl, hx2good.1, hx1flat]

/-! ### The invariant holds in every reachable state -/

theorem Inv_new : Inv deque_new := ⟨rfl, by simp [deque_new]⟩

theorem push_back_eq (d : Deque) (v : Int) (g : Bool) (d2 : Deque) (p : Int)
    (h : insert_at d (d.sz : Int) v g = Except.ok (d2, p)) :
    push_back d v g = Except.ok d2 := by
  rw [push_back, h]
  rfl

theorem push_front_eq (d : Deque) (v : Int) (g : Bool) (d2 : Deque) (p : Int)
    (h : insert_at d 0 v g = Except.ok (d2, p)) :
    push_front d v g = Except.ok d2 := by
  rw [push_front, h]
  rfl

theorem pop_back_eq (d : Deque) (g : Bool) (d2 : Deque) (p : Int)
    (h : remove_at d ((d.sz : Int) - 1) g = Except.ok (d2, p)) :
    pop_back d g = Except.ok d2 := by
  rw [pop_back, h]
  rfl

theorem pop_front_eq (d : Deque) (g : Bool) (d2 : Deque) (p : Int)
    (h : remove_at d 0 g = Except.ok (d2, p)) :
    pop_front d g = Except.ok d2 := by
  rw [pop_front, h]
  rfl

theorem Inv_step (d : Deque) (o : Op) (h : Inv d) : Inv (step d o) := by
  cases o with
  | pushB v g =>
    obtain ⟨d2, he, _, _, hI⟩ := insert_at_ok d (d.sz : Int) v g h (by positivity) le_rfl
    simp only [step, push_back_eq d v g d2 _ he]
    exact hI
  | pushF v g =>
    obtain ⟨d2, he, _, _, hI⟩ := insert_at_ok d 0 v g h le_rfl (by positivity)
    simp only [step, push_front_eq d v g d2 _ he]
    exact hI
  | popB g =>
    by_cases hz : d.sz = 0
    · have he : remove_at d ((d.sz : Int) - 1) g = Except.error Err.indexOutOfBound :=
        remove_at_err d _ g (by omega)
      simp only [step, pop_back, he, Except.map_error]
      exact h
    · obtain ⟨d2, he, _, _, hI⟩ := remove_at_ok d ((d.sz : Int) - 1) g h (by omega) (by omega)
      simp only [step, pop_back_eq d g d2 _ he]
      exact hI
  | popF g =>
    by_cases hz : d.sz = 0
    · have he : remove_at d 0 g = Except.error Err.indexOutOfBound :=
        remove_at_err d 0 g (by omega)
      simp only [step, pop_front, he, Except.map_error]
      exact h
    · obtain ⟨d2, he, _, _, hI⟩ := remove_at_ok d 0 g h le_rfl (by omega)
      simp only [step, pop_front_eq d g d2 _ he]
      exact hI
  | ins pos v g =>
    by_cases hb : 0 ≤ pos ∧ pos ≤ (d.sz : Int)
    · obtain ⟨d2, he, _, _, hI⟩ := insert_at_ok d pos v g h hb.1 hb.2
      simp only [step, he]
      exact hI
    · have he := insert_at_err d pos v g (by omega)
      simp only [step, he]
      exact h
  | rem pos g =>
    by_cases hb : 0 ≤ pos ∧ pos < (d.sz : Int)
    · obtain ⟨d2, he, _, _, hI⟩ := remove_at_ok d pos g h hb.1 hb.2
      simp only [step, he]
      exact hI
    · have he := remove_at_err d pos g (by omega)
      simp only [step, he]
      exact h
  | gcOp => exact Inv_gc d h
  | clearOp => exact Inv_new

theorem Inv_runFrom (d : Deque) (h : Inv d) : ∀ ops : List Op, Inv (runFrom d ops)
  | [] => h
  | o :: rest => Inv_runFrom (step d o) (Inv_step d o h) rest

theorem Inv_run (ops : List Op) : Inv (run ops) := Inv_runFrom deque_new Inv_new ops

/-! ### Size accounting: successful pushes minus successful pops -/

theorem step_sz_acct (d : Deque) (o : Op) (h : Inv d) (hnc : o.isClear = false) :
    (step d o).sz + popDelta d o = d.sz + pushDelta d o := by
  cases o with
  | pushB v g =>
    obtain ⟨d2, he, h1, _, _⟩ := insert_at_ok d (d.sz : Int) v g h (by positivity) le_rfl
    have hp := push_back_eq d v g d2 _ he
    simp only [step, pushDelta, popDelta, hp, h1]
  | pushF v g =>
    obtain ⟨d2, he, h1, _, _⟩ := insert_at_ok d 0 v g h le_rfl (by positivity)
    have hp := push_front_eq d v g d2 _ he
    simp only [step, pushDelta, popDelta, hp, h1]
  | popB g =>
    by_cases hz : d.sz = 0
    · have he : remove_at d ((d.sz : Int) - 1) g = Except.error Err.indexOutOfBound :=
        remove_at_err d _ g (by omega)
      simp [step, pop_back, popDelta, pushDelta, he, Except.map]
    · obtain ⟨d2, he, h1, _, _⟩ := remove_at_ok d ((d.sz : Int) - 1) g h (by omega) (by omega)
      have hp := pop_back_eq d g d2 _ he
      simp only [step, popDelta, pushDelta, hp, h1]
      omega
  | popF g =>
    by_cases hz : d.sz = 0
    · have he : remove_at d 0 g = Except.error Err.indexOutOfBound :=
        remove_at_err d 0 g (by omega)
      simp [step, pop_front, popDelta, pushDelta, he, Except.map]
    · obtain ⟨d2, he, h1, _, _⟩ := remove_at_ok d 0 g h le_rfl (by omega)
      have hp := pop_front_eq d g d2 _ he
      simp only [step, popDelta, pushDelta, hp, h1]
      omega
  | ins pos v g =>
    by_cases hb : 0 ≤ pos ∧ pos ≤ (d.sz : Int)
    · obtain ⟨d2, he, h1, _, _⟩ := insert_at_ok d pos v g h hb.1 hb.2
      simp only [step, pushDelta, popDelta, he, h1]
    · have he := insert_at_err d pos v g (by omega)
      simp only [step, pushDelta, popDelta, he]
  | rem pos g =>
    by_cases hb : 0 ≤ pos ∧ pos < (d.sz : Int)
    · obtain ⟨d2, he, h1, _, _⟩ := remove_at_ok d pos g h hb.1 hb.2
      simp only [step, pushDelta, popDelta, he, h1]
      omega
    · have he := remove_at_err d pos g (by omega)
      simp only [step, pushDelta, popDelta, he]
  | gcOp => simp [step, pushDelta, popDelta, gc_sz]
  | clearOp => simp [Op.isClear] at hnc

theorem count_runFrom (ops : List Op) : ∀ (d : Deque), Inv d →
    (∀ o ∈ ops, o.isClear = false) →
    (runFrom d ops).sz + pops d ops = d.sz + pushes d ops := by
  induction ops with
  | nil => intro d _ _; simp [runFrom, pushes, pops]
  | cons o rest ih =>
    intro d h hnc
    have hacct := step_sz_acct d o h (hnc o (List.mem_cons_self o rest))
    have ihr := ih (step d o) (Inv_step d o h)
      (fun o2 ho2 => hnc o2 (List.mem_cons_of_mem o ho2))
    simp only [runFrom, pushes, pops]
    omega

/-! ### The merge pass of `gc` leaves no mergeable adjacent pair -/

theorem should_merge_mono (sz t t2 : Nat) (h : t ≤ t2)
    (hm : should_merge sz t2 = true) : should_merge sz t = true := by
  simp only [should_merge, decide_eq_true_eq] at hm ⊢
  calc t * t * 64 ≤ t2 * t2 * 64 := Nat.mul_le_mul_right 64 (Nat.mul_le_mul h h)
    _ ≤ sz := hm

theorem mergeInto_head (sz : Nat) :
    ∀ (a : Chunk) (l : List Chunk),
      ∃ c rest2, mergeInto sz a l = c :: rest2 ∧ a.length ≤ c.length
  | a, [] => ⟨a, [], by simp [mergeInto], le_rfl⟩
  | a, b :: rest => by
    by_cases hm : should_merge sz (a.length + b.length) = true
    · obtain ⟨c, rest2, heq, hlen⟩ := mergeInto_head sz (a ++ b) rest
      refine ⟨c, rest2, by simp only [mergeInto, if_pos hm, heq], ?_⟩
      simp only [List.length_append] at hlen
      omega
    · obtain ⟨c, rest2, heq, hlen⟩ := mergeInto_head sz b rest
      exact ⟨a, mergeInto sz b rest, by simp only [mergeInto, if_neg hm], le_rfl⟩

theorem mergeInto_chain (sz : Nat) :
    ∀ (a : Chunk) (l : List Chunk),
      List.Chain' (fun u w => should_merge sz (u.length + w.length) = false)
        (mergeInto sz a l)
  | a, [] => by simp [mergeInto]
  | a, b :: rest => by
    by_cases hm : should_merge sz (a.length + b.length) = true
    · simpa only [mergeInto, if_pos hm] using mergeInto_chain sz (a ++ b) rest
    · rw [mergeInto, if_neg hm]
      obtain ⟨c, rest2, heq, hlen⟩ := mergeInto_head sz b rest
      have hch := mergeInto_chain sz b rest
      rw [heq] at hch ⊢
      refine List.Chain'.cons ?_ hch
      cases hcontra : should_merge sz (a.length + c.length) with
      | false => rfl
      | true =>
        exact absurd (should_merge_mono sz _ _ (by omega) hcontra) hm

theorem gc_chain (d : Deque) :
    List.Chain' (fun u w => should_merge d.sz (u.length + w.length) = false) ((gc d).x) := by
  show List.Chain' _ (mergeRun d.sz (splitRun d.sz (clearZeroRun d.x)))
  cases splitRun d.sz (clearZeroRun d.x) with
  | nil => simp [mergeRun]
  | cons a rest =>
    simp only [mergeRun]
    exact mergeInto_chain d.sz a rest

/-! ### Executing the two concrete traces, block by block -/

set_option maxRecDepth 40000 in
theorem segA1 : runFrom deque_new (pushSeg 25) = st 25 [9, 8, 8] := by decide

set_option maxRecDepth 40000 in
theorem segA2 : runFrom (st 25 [9, 8, 8]) (pushSeg 25) = st 50 [15, 10, 9, 8, 8] := by decide

set_option maxRecDepth 40000 in
theorem segA3 : runFrom (st 50 [15, 10, 9, 8, 8]) (pushSeg 25)
    = st 75 [17, 12, 11, 10, 9, 8, 8] := by decide

set_option maxRecDepth 40000 in
theorem segA4 : runFrom (st 75 [17, 12, 11, 10, 9, 8, 8]) (pushSeg 25)
    = st 100 [14, 15, 13, 12, 11, 10, 9, 8, 8] := by decide

set_option maxRecDepth 40000 in
theorem segA5 : runFrom (st 100 [14, 15, 13, 12, 11, 10, 9, 8, 8]) (pushSeg 25)
    = st 125 [23, 16, 15, 13, 12, 11, 10, 9, 8, 8] := by decide

set_option maxRecDepth 40000 in
theorem segA6 : runFrom (st 125 [23, 16, 15, 13, 12, 11, 10, 9, 8, 8]) (pushSeg 25)
    = st 150 [31, 17, 16, 15, 13, 12, 11, 10, 9, 8, 8] := by decide

set_option maxRecDepth 40000 in
theorem segA7 : runFrom (st 150 [31, 17, 16, 15, 13, 12, 11, 10, 9, 8, 8]) (pushSeg 24)
    = st 174 [37, 18, 17, 16, 15, 13, 12, 11, 10, 9, 8, 8] := by decide

set_option maxRecDepth 40000 in
theorem segB1 : runFrom (st 174 [37, 18, 17, 16, 15, 13, 12, 11, 10, 9, 8, 8]) (popSeg 25)
    = st 149 [37, 18, 17, 16, 15, 13, 12, 11, 10] := by decide

set_option maxRecDepth 40000 in
theorem segB2 : runFrom (st 149 [37, 18, 17, 16, 15, 13, 12, 11, 10]) (popSeg 25)
    = st 124 [37, 18, 17, 16, 15, 13, 8] := by decide

set_option maxRecDepth 40000 in
theorem segB3 : runFrom (st 124 [37, 18, 17, 16, 15, 13, 8]) (popSeg 25)
    = st 99 [37, 18, 17, 16, 11] := by decide

set_option maxRecDepth 40000 in
theorem segB4 : runFrom (st 99 [37, 18, 17, 16, 11]) (popSeg 25)
    = st 74 [37, 18, 17, 2] := by decide

set_option maxRecDepth 40000 in
theorem segB5 : runFrom (st 74 [37, 18, 17, 2]) (popSeg 25) = st 49 [37, 12] := by decide

set_option maxRecDepth 40000 in
theorem segB6 : runFrom (st 49 [37, 12]) (popSeg 8) = st 41 [37, 4] := by decide

set_option maxRecDepth 40000 in
theorem segB7 : runFrom (st 41 [37, 4]) (popSeg 1) = st 40 [37, 3] := by decide

theorem run_trace5prev_eq : run trace5prev = st 41 [37, 4] := by
  rw [run, trace5prev,
    runFrom_append, segA1, runFrom_append, segA2, runFrom_append, segA3,
    runFrom_append, segA4, runFrom_append, segA5, runFrom_append, segA6,
    runFrom_append, segA7, runFrom_append, segB1, runFrom_append, segB2,
    runFrom_append, segB3, runFrom_append, segB4, runFrom_append, segB5, segB6]

theorem run_trace5_eq : run trace5 = st 40 [37, 3] := by
  rw [run, trace5, runFrom_append]
  rw [show runFrom deque_new trace5prev = st 41 [37, 4] from run_trace5prev_eq]
  exact segB7

set_option maxRecDepth 40000 in
theorem run_trace6_eq : run trace6 = st 8 [0, 8] := by decide

/-! ### The claims -/

/-- Claim C1: for every container reachable by public operations and every
logical index `pos` with `0 ≤ pos < N`, `access(pos)` (and hence `at(pos)` and
`operator[](pos)`, which forward to it) returns the element at position `pos`
of the concatenation of the chunks in table order, each chunk in slot order;
for `pos` outside `[0, N)` it raises `index-out-of-bound`. -/
theorem claim_C1_access (ops : List Op) (pos : Int) :
    (0 ≤ pos → pos < ((run ops).sz : Int) →
      access (run ops) pos = Except.ok ((run ops).x.flatten.getD pos.toNat 0)) ∧
    (pos < 0 ∨ ((run ops).sz : Int) ≤ pos →
      access (run ops) pos = Except.error Err.indexOutOfBound) :=
  ⟨fun h0 h1 => access_ok (run ops) pos (Inv_run ops) h0 h1,
   fun h => access_err (run ops) pos h⟩

/-- Witness for C1 at a concrete two-element container: index 1 reads the
second element, index 2 is out of bound. -/
theorem claim_C1_access_witness :
    (access (run [Op.pushB 5 false, Op.pushB 6 false]) 1
      = Except.ok ((run [Op.pushB 5 false, Op.pushB 6 false]).x.flatten.getD
          ((1 : Int)).toNat 0)) ∧
    access (run [Op.pushB 5 false, Op.pushB 6 false]) 2
      = Except.error Err.indexOutOfBound :=
  ⟨(claim_C1_access [Op.pushB 5 false, Op.pushB 6 false] 1).1 (by decide) (by decide),
   (claim_C1_access [Op.pushB 5 false, Op.pushB 6 false] 2).2 (by decide)⟩

/-- Claim C2 (amended): in every state reachable by public operations,
`size()` equals the sum of the lengths of all chunks in the chunk table; and
along any operation sequence that contains no `clear()`, `size()` equals the
number of successful push/insert operations minus the number of successful
pop/erase operations.  (The original claim fails for sequences containing
`clear()`, which resets the size without being a pop or an erase — see the
counterexample.) -/
theorem claim_C2_size (ops : List Op) :
    (run ops).sz = ((run ops).x.map List.length).sum ∧
    ((∀ o ∈ ops, o.isClear = false) →
      (run ops).sz + pops deque_new ops = pushes deque_new ops) := by
  constructor
  · rw [(Inv_run ops).1]
    simp [List.length_flatten]
  · intro hnc
    have h := count_runFrom ops deque_new Inv_new hnc
    simpa [run, deque_new] using h

/-- Counterexample to C2 as stated: after `push_back(1); clear()` the size is
0 but one push and no pop/erase succeeded. -/
theorem claim_C2_counterexample :
    (run [Op.pushB 1 false, Op.clearOp]).sz
        + pops deque_new [Op.pushB 1 false, Op.clearOp]
      ≠ pushes deque_new [Op.pushB 1 false, Op.clearOp] := by decide

/-- Witness for C2 on a concrete clear-free sequence. -/
theorem claim_C2_size_witness :
    (run [Op.pushB 4 false, Op.pushB 7 false, Op.popF false]).sz
        = ((run [Op.pushB 4 false, Op.pushB 7 false, Op.popF false]).x.map List.length).sum ∧
    (run [Op.pushB 4 false, Op.pushB 7 false, Op.popF false]).sz
        + pops deque_new [Op.pushB 4 false, Op.pushB 7 false, Op.popF false]
      = pushes deque_new [Op.pushB 4 false, Op.pushB 7 false, Op.popF false] :=
  ⟨(claim_C2_size [Op.pushB 4 false, Op.pushB 7 false, Op.popF false]).1,
   (claim_C2_size [Op.pushB 4 false, Op.pushB 7 false, Op.popF false]).2 (by decide)⟩

/-- Claim C3: from every reachable container state, `push_back(v)` followed by
`pop_back()` restores the observable pre-state (same `size()`, same elements
in the same logical order); likewise `push_front(v)` followed by
`pop_front()`, and `insert(it, v)` followed by `erase` of the returned
iterator.  The `rand()` outcomes `g1, g2` of the two mutations are arbitrary. -/
theorem claim_C3_roundtrip (ops : List Op) (v : Int) (g1 g2 : Bool) :
    (∃ d1 d2, push_back (run ops) v g1 = Except.ok d1 ∧ pop_back d1 g2 = Except.ok d2 ∧
      d2.sz = (run ops).sz ∧ d2.x.flatten = (run ops).x.flatten) ∧
    (∃ d1 d2, push_front (run ops) v g1 = Except.ok d1 ∧ pop_front d1 g2 = Except.ok d2 ∧
      d2.sz = (run ops).sz ∧ d2.x.flatten = (run ops).x.flatten) ∧
    (∀ it : Iter, it.q = some 0 → 0 ≤ it.pos → it.pos ≤ ((run ops).sz : Int) →
      ∃ d1 it1 d2 it2, insert (run ops) 0 it v g1 = Except.ok (d1, it1) ∧
        erase d1 0 it1 g2 = Except.ok (d2, it2) ∧
        d2.sz = (run ops).sz ∧ d2.x.flatten = (run ops).x.flatten) := by
  have hInv := Inv_run ops
  refine ⟨?_, ?_, ?_⟩
  · obtain ⟨d1, he1, hsz1, hfl1, hI1⟩ :=
      insert_at_ok (run ops) ((run ops).sz : Int) v g1 hInv (by positivity) le_rfl
    have hfl1b : d1.x.flatten = (run ops).x.flatten ++ [v] := by
      rw [hfl1, Int.toNat_natCast, hInv.1, List.insertIdx_length_self]
    obtain ⟨d2, he2, hsz2, hfl2, hI2⟩ :=
      remove_at_ok d1 ((d1.sz : Int) - 1) g2 hI1 (by omega) (by omega)
    refine ⟨d1, d2, push_back_eq _ _ _ _ _ he1, pop_back_eq _ _ _ _ he2, by omega, ?_⟩
    have hto : ((d1.sz : Int) - 1).toNat = (run ops).x.flatten.length := by
      rw [← hInv.1]; omega
    rw [hfl2, hto, hfl1b, ← List.insertIdx_length_self (run ops).x.flatten v,
      List.eraseIdx_insertIdx]
  · obtain ⟨d1, he1, hsz1, hfl1, hI1⟩ :=
      insert_at_ok (run ops) 0 v g1 hInv le_rfl (by positivity)
    have hfl1b : d1.x.flatten = v :: (run ops).x.flatten := by
      rw [hfl1]
      rfl
    obtain ⟨d2, he2, hsz2, hfl2, hI2⟩ :=
      remove_at_ok d1 0 g2 hI1 le_rfl (by omega)
    refine ⟨d1, d2, push_front_eq _ _ _ _ _ he1, pop_front_eq _ _ _ _ he2, by omega, ?_⟩
    rw [hfl2, hfl1b]
    rfl
  · intro it hq h0 h1
    obtain ⟨d1, he1, hsz1, hfl1, hI1⟩ := insert_at_ok (run ops) it.pos v g1 hInv h0 h1
    have hins : insert (run ops) 0 it v g1
        = Except.ok (d1, { q := some 0, pos := it.pos }) := by
      simp [insert, check_owns, hq, he1, Except.map]
    obtain ⟨d2, he2, hsz2, hfl2, hI2⟩ := remove_at_ok d1 it.pos g2 hI1 h0 (by omega)
    have hers : erase d1 0 { q := some 0, pos := it.pos } g2
        = Except.ok (d2, { q := some 0, pos := it.pos }) := by
      simp [erase, check_owns, he2, Except.map]
    refine ⟨d1, _, d2, _, hins, hers, by omega, ?_⟩
    rw [hfl2, hfl1, List.eraseIdx_insertIdx]

/-- Witness for C3 at a concrete state: the three round trips at the container
holding `5, 6` (the insert/erase pair at the begin iterator). -/
theorem claim_C3_roundtrip_witness :
    ∃ d1 it1 d2 it2,
      insert (run [Op.pushB 5 false, Op.pushB 6 false]) 0 { q := some 0, pos := 0 } 9 false
          = Except.ok (d1, it1) ∧
      erase d1 0 it1 false = Except.ok (d2, it2) ∧
      d2.sz = (run [Op.pushB 5 false, Op.pushB 6 false]).sz ∧
      d2.x.flatten = (run [Op.pushB 5 false, Op.pushB 6 false]).x.flatten :=
  (claim_C3_roundtrip [Op.pushB 5 false, Op.pushB 6 false] 9 false false).2.2
    { q := some 0, pos := 0 } rfl (by decide) (by decide)

/-- Claim C4 (the code is wrong, the claim matches the documented intent):
on an empty container `pop_front()`, `pop_back()`, `front()` and `back()` all
raise `index-out-of-bound` — not `container-is-empty` as the claim, the doc
comments in the source and spec §7 state.  All four funnel into
`throw_if_out_of_bound`, which only ever throws `index_out_of_bound`;
`container_is_empty` is never thrown anywhere in this implementation. -/
theorem claim_C4_empty_errors (g : Bool) :
    pop_front deque_new g = Except.error Err.indexOutOfBound ∧
    pop_back deque_new g = Except.error Err.indexOutOfBound ∧
    front deque_new = Except.error Err.indexOutOfBound ∧
    back deque_new = Except.error Err.indexOutOfBound := by
  cases g <;> exact ⟨rfl, rfl, rfl, rfl⟩

/-- Claim C5 (amended): after rebalancing, no adjacent pair of chunks that
satisfies the merge predicate survives the next `gc()` pass: the merge loop of
`gc()` re-examines a merged chunk against its new neighbour, so in `gc`'s
result no adjacent pair satisfies the merge predicate — this holds for every
state, in particular after every mutator.  The corresponding statement for
the split predicate is false: `gc()` splits an oversized chunk only once and
never re-examines the halves, so a chunk satisfying the split predicate can
persist even immediately after a `gc()` pass (see the counterexample). -/
theorem claim_C5_rebalance (d : Deque) :
    List.Chain' (fun u w => should_merge d.sz (u.length + w.length) = false) ((gc d).x) :=
  gc_chain d

/-- Counterexample to C5 as stated: after 174 `push_front(1)` and 134
`pop_back()` (each `rand()` draw failing), the last mutation returns normally
and leaves a chunk of 37 elements in a container of size 40; it satisfies the
split predicate, and even after a full `gc()` pass (which splits it into 18
and 19) chunks satisfying the split predicate remain, so the split is not
"immediately pending" in the claimed sense. -/
theorem claim_C5_counterexample :
    pop_back (run trace5prev) false = Except.ok (run trace5) ∧
    ((run trace5).x.any fun c => should_split (run trace5).sz c.length) = true ∧
    ((gc (run trace5)).x.any fun c => should_split (gc (run trace5)).sz c.length) = true := by
  refine ⟨?_, ?_, ?_⟩
  · rw [run_trace5prev_eq, run_trace5_eq]
    decide
  · rw [run_trace5_eq]
    decide
  · rw [run_trace5_eq]
    decide

/-- Claim C6 (amended): in every reachable state the chunk table holds at
least one chunk; but an empty chunk can coexist with nonempty chunks in a
table of size above 1 — `remove_at` reclaims an emptied chunk only when it is
the last chunk or when the merge predicate fires, so the original invariant
fails (see the counterexample). -/
theorem claim_C6_empty_chunks (ops : List Op) : (run ops).x ≠ [] :=
  (Inv_run ops).2

/-- Counterexample to C6 as stated: after 16 `push_back(1)` and 8
`pop_front()` the table has two chunks and the first is empty. -/
theorem claim_C6_counterexample :
    1 < (run trace6).x.length ∧ ((run trace6).x.getD 0 []).length = 0 := by
  rw [run_trace6_eq]
  decide

/-- Claim C7 (amended): `erase(it)` raises `invalid-iterator` when the
iterator is not owned by the container; but for an owned iterator at the end
position (logical index `size()`) it raises `index-out-of-bound` (from
`throw_if_out_of_bound` inside `remove_at`), not `invalid-iterator` as the
claim states (see the counterexample). -/
theorem claim_C7_erase_errors (d : Deque) (owner : Nat) (it : Iter) (g : Bool) :
    (it.q ≠ some owner → erase d owner it g = Except.error Err.invalidIterator) ∧
    (it.q = some owner → it.pos = (d.sz : Int) →
      erase d owner it g = Except.error Err.indexOutOfBound) := by
  constructor
  · intro h
    simp [erase, check_owns, h]
  · intro h1 h2
    simp only [erase, check_owns, if_pos h1]
    rw [remove_at_err d it.pos g (Or.inr (by omega))]
    rfl

/-- Counterexample to C7 as stated: erasing the owned end iterator of a
one-element container yields `index-out-of-bound`, not `invalid-iterator`. -/
theorem claim_C7_counterexample :
    erase (run [Op.pushB 5 false]) 0 { q := some 0, pos := 1 } false
        = Except.error Err.indexOutOfBound ∧
    erase (run [Op.pushB 5 false]) 0 { q := some 0, pos := 1 } false
        ≠ Except.error Err.invalidIterator := by decide

/-- Witness for C7: a foreign iterator is rejected with `invalid-iterator`;
an owned end iterator of the empty container gets `index-out-of-bound`. -/
theorem claim_C7_erase_errors_witness :
    erase deque_new 0 { q := none, pos := 0 } false
        = Except.error Err.invalidIterator ∧
    erase deque_new 0 { q := some 0, pos := 0 } false
        = Except.error Err.indexOutOfBound :=
  ⟨(claim_C7_erase_errors deque_new 0 { q := none, pos := 0 } false).1 (by decide),
   (claim_C7_erase_errors deque_new 0 { q := some 0, pos := 0 } false).2 rfl (by decide)⟩

/-- Claim C8 (amended): dereference (`operator*` / `operator->`) performs no
null check — with a null container reference the source dereferences a null
pointer (`q->access(pos)` with `q == nullptr`, undefined behaviour, modelled
as `none`), so no `invalid-iterator` is raised (see the counterexample).
With a non-null owner, dereference is exactly `access(pos)`: an index outside
`[0, N)` raises `index-out-of-bound` and an index inside returns the element
at that logical position. -/
theorem claim_C8_deref (env : Nat → Deque) (it : Iter) (qi : Nat) :
    (it.q = none → iter_deref env it = none) ∧
    (it.q = some qi → Inv (env qi) →
      ((it.pos < 0 ∨ ((env qi).sz : Int) ≤ it.pos →
        iter_deref env it = some (Except.error Err.indexOutOfBound)) ∧
       (0 ≤ it.pos → it.pos < ((env qi).sz : Int) →
        iter_deref env it
          = some (Except.ok ((env qi).x.flatten.getD it.pos.toNat 0))))) := by
  constructor
  · intro h
    simp [iter_deref, h]
  · intro h1 hInv
    constructor
    · intro h2
      simp only [iter_deref, h1]
      rw [access_err (env qi) it.pos h2]
    · intro h2 h3
      simp only [iter_deref, h1]
      rw [access_ok (env qi) it.pos hInv h2 h3]

/-- Counterexample to C8 as stated: dereferencing a default-constructed
iterator does not produce `invalid-iterator` (the code never checks; the null
pointer is dereferenced). -/
theorem claim_C8_counterexample :
    iter_deref (fun _ => deque_new) { q := none, pos := 0 }
      ≠ some (Except.error Err.invalidIterator) := by decide

/-- Witness for C8 on a concrete one-element container. -/
theorem claim_C8_deref_witness :
    iter_deref (fun _ => run [Op.pushB 9 false]) { q := some 3, pos := 0 }
      = some (Except.ok ((run [Op.pushB 9 false]).x.flatten.getD ((0 : Int)).toNat 0)) :=
  ((claim_C8_deref (fun _ => run [Op.pushB 9 false]) { q := some 3, pos := 0 } 3).2
    rfl (Inv_run [Op.pushB 9 false])).2 (by decide) (by decide)

set_option maxRecDepth 40000 in
/-- Claim C9: from a freshly constructed empty container,
`push_front(10); push_back(20); push_front(30); push_back(40)` yields
`size() == 4` and the logical sequence `30, 10, 20, 40`, whatever the four
`rand()` draws do. -/
theorem claim_C9_alternation (g1 g2 g3 g4 : Bool) :
    (run [Op.pushF 10 g1, Op.pushB 20 g2, Op.pushF 30 g3, Op.pushB 40 g4]).sz = 4 ∧
    (run [Op.pushF 10 g1, Op.pushB 20 g2, Op.pushF 30 g3, Op.pushB 40 g4]).x.flatten
      = [30, 10, 20, 40] := by
  cases g1 <;> cases g2 <;> cases g3 <;> cases g4 <;> decide

/-- Claim C10: `gc()` never changes the observable state: the size is
untouched, the stored sequence is untouched, the observable outcome of
`insert_at`/`remove_at` does not depend on the `rand()` draw, and on any
state satisfying the basic invariant every `access` is unchanged. -/
theorem claim_C10_gc_transparent (d : Deque) :
    ((gc d).sz = d.sz ∧ (gc d).x.flatten = d.x.flatten) ∧
    (∀ pos v : Int,
      (insert_at d pos v true).map (fun r => (r.1.sz, r.1.x.flatten, r.2))
        = (insert_at d pos v false).map (fun r => (r.1.sz, r.1.x.flatten, r.2))) ∧
    (∀ pos : Int,
      (remove_at d pos true).map (fun r => (r.1.sz, r.1.x.flatten, r.2))
        = (remove_at d pos false).map (fun r => (r.1.sz, r.1.x.flatten, r.2))) ∧
    (Inv d → ∀ pos : Int, access (gc d) pos = access d pos) := by
  refine ⟨⟨gc_sz d, gc_flatten d⟩, ?_, ?_, ?_⟩
  · intro pos v
    cases hth : throw_if_out_of_bound d pos true with
    | error e => simp [insert_at, hth]
    | ok u => simp [insert_at, hth, Except.map, gc_sz, gc_flatten]
  · intro pos
    cases hth : throw_if_out_of_bound d pos false with
    | error e => simp [remove_at, hth]
    | ok u => simp [remove_at, hth, Except.map, gc_sz, gc_flatten]
  · intro hInv pos
    by_cases hIn : 0 ≤ pos ∧ pos < (d.sz : Int)
    · rw [access_ok d pos hInv hIn.1 hIn.2,
        access_ok (gc d) pos (Inv_gc d hInv) hIn.1 (by rw [gc_sz]; exact hIn.2),
        gc_flatten]
    · have h2 : pos < 0 ∨ (d.sz : Int) ≤ pos := by omega
      rw [access_err d pos h2, access_err (gc d) pos (by rw [gc_sz]; exact h2)]

/-- Witness for C10 on a concrete three-element single-chunk state. -/
theorem claim_C10_gc_transparent_witness :
    access (gc (st 3 [3])) 1 = access (st 3 [3]) 1 :=
  (claim_C10_gc_transparent (st 3 [3])).2.2.2 ⟨by decide, by decide⟩ 1

end SjtuDeque
